import Mathlib

/-!
# Verification of the `sudoku` board library

Shallow embedding of `src/lib.rs` (crate `sudoku`): a generalized Sudoku board
with validated construction, cell access, bulk population from text, row /
column / section view iterators, a solved/placeable validator, and a
box-drawing text renderer.

Rust `usize`/`u32` values are modelled as `Nat` (no arithmetic that could
overflow occurs in the library; `u32` parsing checks its 2^32 bound
explicitly).  Rust panics (fatal faults) are modelled as `none` of an
`Option` result; the recoverable constructor error is an `Except`.
-/

/-- The construction error enum of `Sudoku::new` (`CreateSudokuError`). -/
inductive CreateSudokuError where
  | InvalidSize
  | InvalidSecWidth
  | InvalidSecHeight
  | InvalidCombination
deriving DecidableEq, Repr

/-- The board: `size`, section dimensions and the nested grid of optional
cell values, exactly as the Rust struct `Sudoku`. -/
structure Sudoku where
  size : Nat
  sec_width : Nat
  sec_height : Nat
  grid : List (List (Option Nat))
deriving DecidableEq, Repr

namespace Sudoku

/-- Rust `Sudoku::new`: validated construction.  Errors are recoverable results
(`Except.error`), mirroring Rust's `Result<Self, CreateSudokuError>`. -/
def new (size sec_width sec_height : Nat) : Except CreateSudokuError Sudoku :=
  if size < 1 then .error .InvalidSize
  else if sec_width < 1 then .error .InvalidSecWidth
  else if sec_height < 1 then .error .InvalidSecHeight
  else if sec_width * sec_height ≠ size then .error .InvalidCombination
  else .ok { size := size, sec_width := sec_width, sec_height := sec_height,
             grid := List.replicate size (List.replicate size none) }

/-- Rust `Sudoku::get` on in-range coordinates: `self.grid[row][col]`.
(Out-of-range indices default; the faulting behaviour of Rust's indexing is
modelled separately by `get?`.) -/
def get (su : Sudoku) (col row : Nat) : Option Nat :=
  (su.grid.getD row []).getD col none

/-- Rust `Sudoku::get` with the fatal out-of-range fault made explicit:
`none` models the Rust index panic, `some c` the returned cell value. -/
def get? (su : Sudoku) (col row : Nat) : Option (Option Nat) :=
  match su.grid[row]? with
  | Option.none => none
  | Option.some r => r[col]?

/-- Rust `Sudoku::set`: `self.grid[row][col] = v` (in-range update; Rust panics
out of range, where `List.set` is the identity, so no board results there
either way). -/
def set (su : Sudoku) (col row : Nat) (v : Option Nat) : Sudoku :=
  { su with grid := su.grid.set row ((su.grid.getD row []).set col v) }

/-- Rust `Sudoku::size`. -/
def sizeFn (su : Sudoku) : Nat := su.size

/-- Rust `Sudoku::height`: `self.grid.len()`. -/
def height (su : Sudoku) : Nat := su.grid.length

/-- Rust `Sudoku::width`: `self.grid[0].len()`. -/
def width (su : Sudoku) : Nat := (su.grid.getD 0 []).length

end Sudoku

/-- State of `SudokuColIter` (the `&Sudoku` field is passed separately). -/
structure SudokuColIter where
  col : Nat
  current_row : Nat
deriving DecidableEq, Repr

/-- State of `SudokuRowIter`. -/
structure SudokuRowIter where
  row : Nat
  current_col : Nat
deriving DecidableEq, Repr

/-- State of `SudokuSecIter`. -/
structure SudokuSecIter where
  start_row : Nat
  start_col : Nat
  current_row : Nat
  current_col : Nat
  done : Bool
deriving DecidableEq, Repr

namespace Sudoku

/-- One `next()` step of `SudokuColIter`. -/
def colNext (su : Sudoku) (it : SudokuColIter) : Option (Option Nat × SudokuColIter) :=
  if it.current_row = su.height then none
  else some (su.get it.col it.current_row, ⟨it.col, it.current_row + 1⟩)

/-- One `next()` step of `SudokuRowIter`. -/
def rowNext (su : Sudoku) (it : SudokuRowIter) : Option (Option Nat × SudokuRowIter) :=
  if it.current_col = su.width then none
  else some (su.get it.current_col it.row, ⟨it.row, it.current_col + 1⟩)

/-- One `next()` step of `SudokuSecIter`. -/
def secNext (su : Sudoku) (it : SudokuSecIter) : Option (Option Nat × SudokuSecIter) :=
  if it.done then none
  else
    if it.current_col = it.start_col + su.sec_width - 1 then
      if it.current_row = it.start_row + su.sec_height - 1 then
        some (su.get it.current_col it.current_row, { it with done := true })
      else
        some (su.get it.current_col it.current_row,
              { it with current_col := it.start_col, current_row := it.current_row + 1 })
    else
      some (su.get it.current_col it.current_row, { it with current_col := it.current_col + 1 })

/-- Initial state of `Sudoku::sec_iter(col, row)`: the positional indexer
computes the section's top-left corner. -/
def secInit (su : Sudoku) (col row : Nat) : SudokuSecIter :=
  ⟨row / su.sec_height * su.sec_height, col / su.sec_width * su.sec_width,
   row / su.sec_height * su.sec_height, col / su.sec_width * su.sec_width, false⟩

end Sudoku

/-- Run a `next`-style iterator, collecting the yielded elements, with
enough fuel; once `next` returns `none` the run is over (fuel beyond the
first `none` is irrelevant, see `iterate_stable`). -/
def iterate {σ α : Type} (next : σ → Option (α × σ)) : Nat → σ → List α
  | 0, _ => []
  | n + 1, s =>
    match next s with
    | Option.none => []
    | Option.some (a, s') => a :: iterate next n s'

namespace Sudoku

/-- All elements yielded by `Sudoku::col_iter(col)` (top to bottom). -/
def colList (su : Sudoku) (col : Nat) : List (Option Nat) :=
  iterate su.colNext (su.height + 1) ⟨col, 0⟩

/-- All elements yielded by `Sudoku::row_iter(row)` (left to right). -/
def rowList (su : Sudoku) (row : Nat) : List (Option Nat) :=
  iterate su.rowNext (su.width + 1) ⟨row, 0⟩

/-- All elements yielded by `Sudoku::sec_iter(col, row)` (row-major over the
section containing `(col, row)`). -/
def secList (su : Sudoku) (col row : Nat) : List (Option Nat) :=
  iterate su.secNext (su.sec_width * su.sec_height + 1) (su.secInit col row)

/-- Rust `Sudoku::count_in_row`: occurrences of `Some(value)` in the row view. -/
def count_in_row (su : Sudoku) (row value : Nat) : Nat :=
  (su.rowList row).countP (fun x => x == some value)

/-- Rust `Sudoku::count_in_col`. -/
def count_in_col (su : Sudoku) (col value : Nat) : Nat :=
  (su.colList col).countP (fun x => x == some value)

/-- Rust `Sudoku::count_in_sec`. -/
def count_in_sec (su : Sudoku) (col row value : Nat) : Nat :=
  (su.secList col row).countP (fun x => x == some value)

/-- Rust `Sudoku::can_place_value`. -/
def can_place_value (su : Sudoku) (col row value : Nat) : Bool :=
  if su.get col row = some value then true
  else (su.count_in_col col value + su.count_in_row row value
        + su.count_in_sec col row value) == 0

/-- Rust `Sudoku::is_solved`: Rust's `1..=size` loop over candidate values, the
row / column loops, and the `step_by` section-corner loops (for a positive
step, `step_by` enumerates exactly the multiples of the step, in order). -/
def is_solved (su : Sudoku) : Bool :=
  (List.range' 1 su.size).all fun v =>
    ((List.range su.height).all fun row => su.count_in_row row v == 1) &&
    ((List.range su.width).all fun col => su.count_in_col col v == 1) &&
    (((List.range su.height).filter (fun row => row % su.sec_height = 0)).all fun row =>
      ((List.range su.width).filter (fun col => col % su.sec_width = 0)).all fun col =>
        su.count_in_sec col row v == 1)

/-- The dimensional invariants the validated constructor establishes
(§3 of the specification): positive dimensions, the section-tiling
equation, and the `size × size` shape of the store. -/
def WellFormed (su : Sudoku) : Prop :=
  1 ≤ su.size ∧ 1 ≤ su.sec_width ∧ 1 ≤ su.sec_height ∧
  su.sec_width * su.sec_height = su.size ∧
  su.grid.length = su.size ∧ ∀ r ∈ su.grid, r.length = su.size

instance (su : Sudoku) : Decidable su.WellFormed := by
  unfold WellFormed; infer_instance

end Sudoku

/-! ## Text model

Rust strings are modelled as `List Char` so that every text operation is a
structurally recursive, kernel-reducible function.  `splitOnPred p` is
Rust's `str::split` for a single-character / predicate pattern: it keeps
empty pieces and maps the empty string to `[""]`. -/

/-- Rust `str::split(pattern)`: split at every character satisfying `p`,
keeping empty pieces. -/
def splitOnPred (p : Char → Bool) : List Char → List (List Char)
  | [] => [[]]
  | c :: cs =>
    if p c then [] :: splitOnPred p cs
    else
      match splitOnPred p cs with
      | [] => [[c]]
      | t :: ts => (c :: t) :: ts

/-- Rust `str::split('\n')`. -/
def splitOnNewline (s : List Char) : List (List Char) :=
  splitOnPred (fun c => c = '\n') s

/-- Rust `char::is_whitespace`: the Unicode White_Space property
(U+0009–U+000D, U+0020, U+0085, U+00A0, U+1680, U+2000–U+200A, U+2028,
U+2029, U+202F, U+205F, U+3000). -/
def isRustWhitespace (c : Char) : Bool :=
  decide ((0x09 ≤ c.toNat ∧ c.toNat ≤ 0x0D) ∨ c.toNat = 0x20 ∨ c.toNat = 0x85 ∨
    c.toNat = 0xA0 ∨ c.toNat = 0x1680 ∨
    (0x2000 ≤ c.toNat ∧ c.toNat ≤ 0x200A) ∨ c.toNat = 0x2028 ∨
    c.toNat = 0x2029 ∨ c.toNat = 0x202F ∨ c.toNat = 0x205F ∨ c.toNat = 0x3000)

/-- Rust `str::split_whitespace`: tokens separated by Unicode whitespace,
empties discarded. -/
def splitWhitespaceTokens (s : List Char) : List (List Char) :=
  (splitOnPred isRustWhitespace s).filter (fun t => t ≠ [])

/-- Rust `str::parse::<u32>`: an optional leading `'+'`, then one or more
decimal digits, and the value must fit in `u32`. -/
def parseU32 (w : List Char) : Option Nat :=
  let t := match w with
    | '+' :: r => r
    | _ => w
  if t ≠ [] ∧ t.all (fun c => c.isDigit) then
    let v := t.foldl (fun a c => a * 10 + (c.toNat - 48)) 0
    if v < 2 ^ 32 then some v else none
  else none

/-- One token of the population string, as interpreted by
`Sudoku::populate_from_str`: `"_"` is the empty cell, a decimal integer in
`[1, size]` is that value, anything else is a fatal parse fault (`none`). -/
def parseCell (size : Nat) (w : List Char) : Option (Option Nat) :=
  if w = ['_'] then some none
  else
    match parseU32 w with
    | Option.some v => if 0 < v ∧ v ≤ size then some (some v) else none
    | Option.none => none

namespace Sudoku

/-- The inner loop of `populate_from_str`: set the cells of one row from its
tokens, left to right, starting at column `col`.  `none` models the panic on
a malformed token. -/
def setLine (su : Sudoku) (row col : Nat) : List (List Char) → Option Sudoku
  | [] => some su
  | w :: ws =>
    match parseCell su.size w with
    | Option.none => none
    | Option.some entry => (su.set col row entry).setLine row (col + 1) ws

/-- The outer loop of `populate_from_str`: process the lines top to bottom,
checking each line's token count (`assert_eq!`, modelled as `none`). -/
def populateLines (su : Sudoku) (row : Nat) : List (List Char) → Option Sudoku
  | [] => some su
  | line :: rest =>
    let cols := splitWhitespaceTokens line
    if cols.length ≠ su.size then none
    else
      match su.setLine row 0 cols with
      | Option.none => none
      | Option.some su2 => su2.populateLines (row + 1) rest

/-- Rust `Sudoku::populate_from_str`: split on `'\n'`, require exactly `size`
lines (`assert_eq!`, modelled as `none`), then set the cells row-major from
each line's whitespace-separated tokens. -/
def populate_from_str (su : Sudoku) (s : List Char) : Option Sudoku :=
  let lines := splitOnNewline s
  if lines.length ≠ su.size then none
  else su.populateLines 0 lines

end Sudoku

namespace Sudoku

/-- Modelled from the spec: `placeIfPossible` appears only in the
specification (§4.5), not in `src/`; per its words it performs the placement
and signals success when `canPlaceValue` holds, and otherwise leaves the
board unchanged and signals failure as an ordinary boolean result. -/
def place_if_possible (su : Sudoku) (col row value : Nat) : Sudoku × Bool :=
  if su.can_place_value col row value then (su.set col row (some value), true)
  else (su, false)

end Sudoku

/-! ## Renderer (`impl Debug for Sudoku`)

Rendered text is modelled at the character level: a rendered line is a
`List Char`, the whole output the list of lines (each line is terminated by
`writeln!`'s newline in Rust). -/

/-- One rendered cell: a present value right-aligned in a field of width
`w` (`iter::repeat(" ")` padding, then the decimal digits), an empty cell
as `'─'` repeated `w` times.  The padding count is the `usize` subtraction
`value_length - c.to_string().len()`: when the value has more digits than
the field is wide this subtraction underflows and the Rust formatter
aborts (panic in debug, wrapping `take` in release) producing no rendered
text — modelled as `none`. -/
def cellChars (w : Nat) : Option Nat → Option (List Char)
  | Option.some c =>
      if (Nat.toDigits 10 c).length ≤ w then
        some (List.replicate (w - (Nat.toDigits 10 c).length) ' '
          ++ Nat.toDigits 10 c)
      else none
  | Option.none => some (List.replicate w '─')

namespace Sudoku

/-- The pieces of one rendered grid row before joining, built left to right
as in the source's `flat_map`: each cell's rendering, with a `"│"` piece
inserted in front of every cell whose column index starts a new section
(`col_index > 0 && col_index % sec_width == 0`).  A faulting cell rendering
aborts the whole row (`none`). -/
def rowPieces (su : Sudoku) (n : Nat) : List (Option Nat) → Option (List (List Char))
  | [] => some []
  | v :: t =>
    match cellChars (Nat.toDigits 10 su.size).length v, su.rowPieces (n + 1) t with
    | Option.some cc, Option.some rest =>
        some ((if 0 < n ∧ n % su.sec_width = 0 then [['│'], cc] else [cc]) ++ rest)
    | _, _ => none

/-- One fully rendered grid row: the pieces joined with single spaces and
wrapped as `"│ {row} │"`; `none` when a cell rendering faults. -/
def rowOutput (su : Sudoku) (row : Nat) : Option (List Char) :=
  match su.rowPieces 0 (su.grid.getD row []) with
  | Option.some ps => some (['│', ' '] ++ List.intercalate [' '] ps ++ [' ', '│'])
  | Option.none => none

end Sudoku

/-- Collect a list of fallible results, failing if any element failed. -/
def optionList {α : Type} : List (Option α) → Option (List α)
  | [] => some []
  | Option.none :: _ => none
  | Option.some a :: rest =>
    match optionList rest with
    | Option.some l => some (a :: l)
    | Option.none => none

/-- A horizontal border line synthesized from a rendered row, as in the
source: every `'│'` becomes the left glyph at index 0, the right glyph at
the last index, the middle glyph elsewhere; every other character becomes
`'─'`. -/
def borderOf (first : List Char) (l r m : Char) : List Char :=
  first.enum.map fun p =>
    if p.2 = '│' then
      if p.1 = 0 then l
      else if p.1 = first.length - 1 then r
      else m
    else '─'

namespace Sudoku

/-- The `while` loop of the Debug renderer, starting at `row`: emit the top
or middle border before each section-starting row, then the row itself,
then the bottom border after the final row of the final section. -/
def renderFrom (su : Sudoku) (outs : List (List Char)) (row : Nat) : List (List Char) :=
  if _h : row < su.height then
    (if row % su.sec_height = 0 then
       [if row = 0 then borderOf (outs.getD 0 []) '┌' '┐' '┬'
        else borderOf (outs.getD 0 []) '├' '┤' '┼']
     else [])
    ++ [outs.getD row []]
    ++ (if (row + 1) % su.sec_height = 0 ∧ row + 1 = su.height then
         [borderOf (outs.getD 0 []) '└' '┘' '┴']
       else [])
    ++ su.renderFrom outs (row + 1)
  else []
termination_by su.height - row

/-- The eagerly collected `row_outputs` vector of the Debug renderer: all
rows are rendered before the `while` loop starts, so a faulting cell
anywhere aborts the whole render (`none`). -/
def rowOutputs (su : Sudoku) : Option (List (List Char)) :=
  optionList ((List.range su.height).map su.rowOutput)

/-- The full rendered output of `impl Debug for Sudoku`, as its list of
lines; `none` models the formatter aborting on a cell whose value has more
digits than the field width. -/
def renderLines (su : Sudoku) : Option (List (List Char)) :=
  match su.rowOutputs with
  | Option.some outs => some (su.renderFrom outs 0)
  | Option.none => none

end Sudoku

/-! ### The reference layout (C10), transcribed from the specification -/

/-- A rendered cell of the reference layout: a present value right-aligned
in a field of width `w`, an empty cell as the filler `'─'` repeated to that
width. -/
def specCell (w : Nat) : Option Nat → List Char
  | Option.some c =>
      List.replicate (w - (Nat.toDigits 10 c).length) ' ' ++ Nat.toDigits 10 c
  | Option.none => List.replicate w '─'

namespace Sudoku

/-- The body of a rendered row per the specification's words: cells joined
with single spaces, with a `'│'` separator inserted immediately before
every column `col` with `col % sectionWidth == 0 ∧ col > 0`. -/
def specRowBody (su : Sudoku) (w : Nat) : Nat → List (Option Nat) → List Char
  | _, [] => []
  | col, v :: vs =>
    (if col = 0 then [] else if col % su.sec_width = 0 then [' ', '│', ' '] else [' '])
    ++ specCell w v ++ su.specRowBody w (col + 1) vs

/-- A rendered row per the specification: the body wrapped as `│ ... │`. -/
def specRowLine (su : Sudoku) (row : Nat) : List Char :=
  ['│', ' ']
  ++ su.specRowBody (Nat.toDigits 10 su.size).length 0 (su.grid.getD row [])
  ++ [' ', '│']

end Sudoku

/-- The character positions of a rendered line holding the vertical glyph
`'│'`, in increasing order. -/
def sepPositions (ln : List Char) : List Nat :=
  (List.range ln.length).filter (fun i => ln[i]? = some '│')

/-- A border line per the specification's words: the leftmost `'│'` becomes
the left glyph, the rightmost the right glyph, the remaining `'│'`
positions the middle glyph, and every other position `'─'`. -/
def specBorder (line : List Char) (l r m : Char) : List Char :=
  line.enum.map fun p =>
    if (sepPositions line).head? = some p.1 then l
    else if (sepPositions line).getLast? = some p.1 then r
    else if p.1 ∈ sepPositions line then m
    else '─'

namespace Sudoku

/-- The reference layout of the whole rendered board per the specification:
a top line, then each of the `size` grid rows preceded by a divider line
whenever `row % sectionHeight == 0 ∧ row > 0`, then a bottom line, all
synthesized from the first rendered row. -/
def specLines (su : Sudoku) : List (List Char) :=
  [specBorder (su.specRowLine 0) '┌' '┐' '┬']
  ++ ((List.range su.size).flatMap fun row =>
        (if 0 < row ∧ row % su.sec_height = 0 then
           [specBorder (su.specRowLine 0) '├' '┤' '┼']
         else [])
        ++ [su.specRowLine row])
  ++ [specBorder (su.specRowLine 0) '└' '┘' '┴']

end Sudoku

/-! ## Lemmas: iterator runs -/

theorem iterate_of_none {σ α : Type} (next : σ → Option (α × σ)) (s : σ)
    (h : next s = none) : ∀ fuel, iterate next fuel s = [] := by
  intro fuel
  cases fuel with
  | zero => rfl
  | succ n => simp [iterate, h]

theorem iterate_succ_of_some {σ α : Type} {next : σ → Option (α × σ)} {s : σ}
    {a : α} {s' : σ} (h : next s = some (a, s')) (n : Nat) :
    iterate next (n + 1) s = a :: iterate next n s' := by
  simp [iterate, h]

theorem iterate_succ_of_none {σ α : Type} {next : σ → Option (α × σ)} {s : σ}
    (h : next s = none) (n : Nat) :
    iterate next (n + 1) s = [] := by
  simp [iterate, h]

theorem iterate_stable {σ α : Type} (next : σ → Option (α × σ)) :
    ∀ (n : Nat) (s : σ), (iterate next n s).length < n →
      ∀ m, n ≤ m → iterate next m s = iterate next n s := by
  intro n
  induction n with
  | zero => intro s h; omega
  | succ n ih =>
    intro s h m hm
    obtain ⟨m', rfl⟩ : ∃ m', m = m' + 1 := ⟨m - 1, by omega⟩
    cases hn : next s with
    | none => simp [iterate, hn]
    | some as =>
      obtain ⟨a, s'⟩ := as
      simp only [iterate, hn, List.length_cons] at h ⊢
      rw [ih s' (by omega) m' (by omega)]

namespace Sudoku

theorem iterate_rowNext (su : Sudoku) (row : Nat) :
    ∀ (n c : Nat), c + n = su.width →
      iterate su.rowNext (n + 1) ⟨row, c⟩ =
        (List.range' c n).map fun col => su.get col row := by
  intro n
  induction n with
  | zero =>
    intro c hc
    have hc' : c = su.width := by omega
    rw [iterate_succ_of_none (by simp [rowNext, hc'])]
    simp
  | succ n ih =>
    intro c hc
    have hne : ¬ c = su.width := by omega
    rw [iterate_succ_of_some (show su.rowNext ⟨row, c⟩ =
      some (su.get c row, ⟨row, c + 1⟩) by simp [rowNext, hne])]
    rw [ih (c + 1) (by omega)]
    rw [show List.range' c (n + 1) = c :: List.range' (c + 1) n from
      List.range'_succ c n 1 ▸ rfl]
    simp

theorem iterate_colNext (su : Sudoku) (col : Nat) :
    ∀ (n r : Nat), r + n = su.height →
      iterate su.colNext (n + 1) ⟨col, r⟩ =
        (List.range' r n).map fun row => su.get col row := by
  intro n
  induction n with
  | zero =>
    intro r hr
    have hr' : r = su.height := by omega
    rw [iterate_succ_of_none (by simp [colNext, hr'])]
    simp
  | succ n ih =>
    intro r hr
    have hne : ¬ r = su.height := by omega
    rw [iterate_succ_of_some (show su.colNext ⟨col, r⟩ =
      some (su.get col r, ⟨col, r + 1⟩) by simp [colNext, hne])]
    rw [ih (r + 1) (by omega)]
    rw [show List.range' r (n + 1) = r :: List.range' (r + 1) n from
      List.range'_succ r n 1 ▸ rfl]
    simp

theorem iterate_secNext_done (su : Sudoku) (st : SudokuSecIter) (hd : st.done = true) :
    ∀ fuel, iterate su.secNext fuel st = [] :=
  iterate_of_none _ _ (by simp [secNext, hd])

theorem iterate_secNext (su : Sudoku) (fr fc : Nat)
    (hw : 1 ≤ su.sec_width) (hh : 1 ≤ su.sec_height) :
    ∀ (fuel cr cc : Nat), fc ≤ cc → cc < fc + su.sec_width →
      fr ≤ cr → cr < fr + su.sec_height →
      (fr + su.sec_height - 1 - cr) * su.sec_width + (fc + su.sec_width - cc) ≤ fuel →
      iterate su.secNext fuel ⟨fr, fc, cr, cc, false⟩ =
        ((List.range' cc (fc + su.sec_width - cc)).map fun c => su.get c cr) ++
        ((List.range' (cr + 1) (fr + su.sec_height - 1 - cr)).flatMap fun r =>
          (List.range' fc su.sec_width).map fun c => su.get c r) := by
  intro fuel
  induction fuel with
  | zero =>
    intro cr cc h1 h2 h3 h4 h5
    omega
  | succ fuel ih =>
    intro cr cc h1 h2 h3 h4 h5
    by_cases hcl : cc = fc + su.sec_width - 1
    · by_cases hrl : cr = fr + su.sec_height - 1
      · -- last cell of the section: yield and finish
        rw [iterate_succ_of_some (show su.secNext ⟨fr, fc, cr, cc, false⟩ =
          some (su.get cc cr, ⟨fr, fc, cr, cc, true⟩) by
            simp only [secNext]
            rw [if_neg (by simp), if_pos hcl, if_pos hrl])]
        rw [iterate_secNext_done su ⟨fr, fc, cr, cc, true⟩ rfl]
        have hone : fc + su.sec_width - cc = 1 := by omega
        have hzero : fr + su.sec_height - 1 - cr = 0 := by omega
        rw [hone, hzero]
        simp
      · -- end of a section row: move to the start of the next row
        rw [iterate_succ_of_some (show su.secNext ⟨fr, fc, cr, cc, false⟩ =
          some (su.get cc cr, ⟨fr, fc, cr + 1, fc, false⟩) by
            simp only [secNext]
            rw [if_neg (by simp), if_pos hcl, if_neg hrl])]
        have hmul : (fr + su.sec_height - 1 - cr) * su.sec_width =
            (fr + su.sec_height - 1 - (cr + 1)) * su.sec_width + su.sec_width := by
          have hstep : fr + su.sec_height - 1 - cr =
              (fr + su.sec_height - 1 - (cr + 1)) + 1 := by omega
          rw [hstep]; ring
        rw [ih (cr + 1) fc (le_refl fc) (by omega) (by omega) (by omega) (by omega)]
        have hone : fc + su.sec_width - cc = 1 := by omega
        have hm : fr + su.sec_height - 1 - cr = (fr + su.sec_height - 1 - (cr + 1)) + 1 := by
          omega
        rw [hone, hm]
        rw [show List.range' (cr + 1) ((fr + su.sec_height - 1 - (cr + 1)) + 1) =
              (cr + 1) :: List.range' (cr + 2) (fr + su.sec_height - 1 - (cr + 1)) from
          List.range'_succ (cr + 1) _ 1 ▸ rfl]
        simp [Nat.add_sub_cancel_left]
    · -- middle of a section row: move right
      rw [iterate_succ_of_some (show su.secNext ⟨fr, fc, cr, cc, false⟩ =
        some (su.get cc cr, ⟨fr, fc, cr, cc + 1, false⟩) by
          simp only [secNext]
          rw [if_neg (by simp), if_neg hcl])]
      rw [ih cr (cc + 1) (by omega) (by omega) h3 h4 (by omega)]
      have hm : fc + su.sec_width - cc = (fc + su.sec_width - (cc + 1)) + 1 := by omega
      rw [hm]
      rw [show List.range' cc ((fc + su.sec_width - (cc + 1)) + 1) =
            cc :: List.range' (cc + 1) (fc + su.sec_width - (cc + 1)) from
        List.range'_succ cc _ 1 ▸ rfl]
      simp

end Sudoku

/-! ## Lemmas: list access -/

theorem getD_set_self {α : Type} (l : List α) (i : Nat) (a d : α) (h : i < l.length) :
    (l.set i a).getD i d = a := by
  rw [List.getD_eq_getElem?_getD]
  rw [List.getElem?_set_self (by omega)]
  rfl

theorem getD_set_ne {α : Type} (l : List α) {i j : Nat} (a d : α) (h : i ≠ j) :
    (l.set i a).getD j d = l.getD j d := by
  rw [List.getD_eq_getElem?_getD, List.getElem?_set_ne h, ← List.getD_eq_getElem?_getD]

theorem getD_mem_of_lt {α : Type} (l : List α) (i : Nat) (d : α) (h : i < l.length) :
    l.getD i d ∈ l := by
  rw [List.getD_eq_getElem l d h]
  exact List.getElem_mem h

namespace Sudoku

/-! ## Lemmas: dimensions and cell access -/

theorem height_eq (su : Sudoku) (hlen : su.grid.length = su.size) :
    su.height = su.size := hlen

theorem width_eq (su : Sudoku) (hlen : su.grid.length = su.size)
    (hrows : ∀ r ∈ su.grid, r.length = su.size) : su.width = su.size := by
  unfold width
  cases hg : su.grid with
  | nil =>
    rw [hg] at hlen
    simp at hlen
    simp [← hlen]
  | cons a l =>
    have ha := hrows a (by rw [hg]; exact List.mem_cons_self a l)
    simp [ha]

theorem set_size (su : Sudoku) (col row : Nat) (v : Option Nat) :
    (su.set col row v).size = su.size := rfl

theorem set_sec_width (su : Sudoku) (col row : Nat) (v : Option Nat) :
    (su.set col row v).sec_width = su.sec_width := rfl

theorem set_sec_height (su : Sudoku) (col row : Nat) (v : Option Nat) :
    (su.set col row v).sec_height = su.sec_height := rfl

theorem get_set_self (su : Sudoku) (col row : Nat) (v : Option Nat)
    (hr : row < su.grid.length) (hc : col < (su.grid.getD row []).length) :
    (su.set col row v).get col row = v := by
  unfold get set
  dsimp only
  rw [getD_set_self _ _ _ _ hr, getD_set_self _ _ _ _ hc]

theorem get_set_ne (su : Sudoku) (col row c r : Nat) (v : Option Nat)
    (h : ¬ (c = col ∧ r = row)) :
    (su.set col row v).get c r = su.get c r := by
  unfold get set
  dsimp only
  by_cases hrr : r = row
  · subst hrr
    have hc : col ≠ c := fun he => h ⟨he.symm, rfl⟩
    by_cases hrow : r < su.grid.length
    · rw [getD_set_self _ _ _ _ hrow, getD_set_ne _ _ _ hc]
    · rw [List.set_eq_of_length_le (by omega)]
  · rw [getD_set_ne _ _ _ (fun he => hrr he.symm)]

theorem set_shape (su : Sudoku) (col row : Nat) (v : Option Nat)
    (hlen : su.grid.length = su.size) (hrows : ∀ r ∈ su.grid, r.length = su.size) :
    (su.set col row v).grid.length = su.size ∧
      ∀ r ∈ (su.set col row v).grid, r.length = su.size := by
  refine ⟨by simp [set, hlen], ?_⟩
  intro r' hr'
  by_cases hrow : row < su.grid.length
  · rcases List.mem_or_eq_of_mem_set hr' with h | h
    · exact hrows r' h
    · subst h
      rw [List.length_set, List.getD_eq_getElem _ _ hrow]
      exact hrows _ (List.getElem_mem hrow)
  · unfold set at hr'
    dsimp only at hr'
    rw [List.set_eq_of_length_le (by omega)] at hr'
    exact hrows r' hr'

/-! ## Lemmas: the three view lists -/

theorem rowList_eq (su : Sudoku) (row : Nat) (hlen : su.grid.length = su.size)
    (hrows : ∀ r ∈ su.grid, r.length = su.size) :
    su.rowList row = (List.range su.size).map fun col => su.get col row := by
  unfold rowList
  rw [iterate_rowNext su row su.width 0 (by omega)]
  rw [width_eq su hlen hrows, ← List.range_eq_range' su.size]

theorem colList_eq (su : Sudoku) (col : Nat) (hlen : su.grid.length = su.size) :
    su.colList col = (List.range su.size).map fun row => su.get col row := by
  unfold colList
  rw [iterate_colNext su col su.height 0 (by omega)]
  rw [height_eq su hlen, ← List.range_eq_range' su.size]

theorem secList_eq (su : Sudoku) (col row : Nat)
    (hw : 1 ≤ su.sec_width) (hh : 1 ≤ su.sec_height) :
    su.secList col row =
      (List.range' (row / su.sec_height * su.sec_height) su.sec_height).flatMap fun r =>
        (List.range' (col / su.sec_width * su.sec_width) su.sec_width).map fun c =>
          su.get c r := by
  unfold secList secInit
  set fr := row / su.sec_height * su.sec_height with hfr
  set fc := col / su.sec_width * su.sec_width with hfc
  have e1 : fr + su.sec_height - 1 - fr = su.sec_height - 1 := by omega
  have e2 : fc + su.sec_width - fc = su.sec_width := by omega
  have hcm : su.sec_height * su.sec_width = su.sec_width * su.sec_height :=
    Nat.mul_comm _ _
  have hmul : (su.sec_height - 1) * su.sec_width + su.sec_width =
      su.sec_height * su.sec_width := by
    rw [Nat.sub_one_mul]
    have : su.sec_width ≤ su.sec_height * su.sec_width :=
      Nat.le_mul_of_pos_left _ hh
    omega
  rw [iterate_secNext su fr fc hw hh _ fr fc
      (le_refl _) (by omega) (le_refl _) (by omega) (by rw [e1, e2]; omega)]
  rw [e1, e2]
  obtain ⟨m, hm⟩ : ∃ m, su.sec_height = m + 1 := ⟨su.sec_height - 1, by omega⟩
  rw [show su.sec_height - 1 = m by omega, hm]
  rw [show List.range' fr (m + 1) = fr :: List.range' (fr + 1) m from
    List.range'_succ fr m 1 ▸ rfl]
  simp

theorem count_in_sec_corner (su : Sudoku) (col row v : Nat)
    (hw : 1 ≤ su.sec_width) (hh : 1 ≤ su.sec_height) :
    su.count_in_sec col row v =
      su.count_in_sec (col / su.sec_width * su.sec_width)
        (row / su.sec_height * su.sec_height) v := by
  unfold count_in_sec secList secInit
  rw [Nat.mul_div_cancel _ (by omega : 0 < su.sec_width),
      Nat.mul_div_cancel _ (by omega : 0 < su.sec_height)]

theorem count_in_row_eq_zero (su : Sudoku) (row v : Nat)
    (hlen : su.grid.length = su.size) (hrows : ∀ r ∈ su.grid, r.length = su.size) :
    (su.count_in_row row v = 0 ↔ ∀ c, c < su.size → su.get c row ≠ some v) := by
  unfold count_in_row
  rw [rowList_eq su row hlen hrows, List.countP_eq_zero]
  simp

theorem count_in_col_eq_zero (su : Sudoku) (col v : Nat)
    (hlen : su.grid.length = su.size) :
    (su.count_in_col col v = 0 ↔ ∀ r, r < su.size → su.get col r ≠ some v) := by
  unfold count_in_col
  rw [colList_eq su col hlen, List.countP_eq_zero]
  simp

theorem count_in_sec_eq_zero (su : Sudoku) (col row v : Nat)
    (hw : 1 ≤ su.sec_width) (hh : 1 ≤ su.sec_height) :
    (su.count_in_sec col row v = 0 ↔
      ∀ c r, col / su.sec_width * su.sec_width ≤ c →
        c < col / su.sec_width * su.sec_width + su.sec_width →
        row / su.sec_height * su.sec_height ≤ r →
        r < row / su.sec_height * su.sec_height + su.sec_height →
        su.get c r ≠ some v) := by
  unfold count_in_sec
  rw [secList_eq su col row hw hh, List.countP_eq_zero]
  constructor
  · intro hall c r hc1 hc2 hr1 hr2 hget
    exact hall (some v)
      (by
        simp only [List.mem_flatMap, List.mem_map]
        exact ⟨r, by rw [List.mem_range'_1]; omega,
               c, by rw [List.mem_range'_1]; omega, hget⟩)
      (by simp)
  · intro hall x hx hbeq
    simp only [List.mem_flatMap, List.mem_map] at hx
    obtain ⟨r, hrmem, c, hcmem, hget⟩ := hx
    rw [List.mem_range'_1] at hrmem hcmem
    have hxv : x = some v := by simpa using hbeq
    exact hall c r (by omega) (by omega) (by omega) (by omega) (hxv ▸ hget)

end Sudoku

/-! ## Fixture boards for the witnesses -/

/-- A solved 4×4 board with 2×2 sections. -/
def boardA : Sudoku :=
  ⟨4, 2, 2, [[some 1, some 2, some 3, some 4],
             [some 3, some 4, some 1, some 2],
             [some 2, some 1, some 4, some 3],
             [some 4, some 3, some 2, some 1]]⟩

/-- A partially filled 4×4 board with 2×2 sections. -/
def boardB : Sudoku :=
  ⟨4, 2, 2, [[some 1, some 1, none, none],
             [none, none, none, none],
             [none, none, none, some 2],
             [none, none, some 2, none]]⟩

/-- The all-empty 1×1 board produced by `Sudoku::new(1, 1, 1)`. -/
def boardC : Sudoku := ⟨1, 1, 1, [[none]]⟩

/-! ## Claim theorems -/

/-- Claim C1: For every `(size, sectionWidth, sectionHeight)`, construction
checks in order: `size < 1` fails with `InvalidSize`; else `sectionWidth <
1` fails with `InvalidSecWidth`; else `sectionHeight < 1` fails with
`InvalidSecHeight`; else `sectionWidth * sectionHeight != size` fails with
`InvalidCombination`; otherwise it succeeds and every in-range cell of the
returned board is empty.  The errors are recoverable results (`Except`),
never fatal. -/
theorem new_construction_spec (size sec_width sec_height : Nat) :
    (size < 1 → Sudoku.new size sec_width sec_height = .error .InvalidSize) ∧
    (1 ≤ size → sec_width < 1 →
      Sudoku.new size sec_width sec_height = .error .InvalidSecWidth) ∧
    (1 ≤ size → 1 ≤ sec_width → sec_height < 1 →
      Sudoku.new size sec_width sec_height = .error .InvalidSecHeight) ∧
    (1 ≤ size → 1 ≤ sec_width → 1 ≤ sec_height → sec_width * sec_height ≠ size →
      Sudoku.new size sec_width sec_height = .error .InvalidCombination) ∧
    (1 ≤ size → 1 ≤ sec_width → 1 ≤ sec_height → sec_width * sec_height = size →
      ∃ su, Sudoku.new size sec_width sec_height = .ok su ∧
        su.size = size ∧ su.sec_width = sec_width ∧ su.sec_height = sec_height ∧
        ∀ col row, col < size → row < size → su.get col row = none) := by
  refine ⟨?_, ?_, ?_, ?_, ?_⟩
  · intro h1
    simp [Sudoku.new, h1]
  · intro h1 h2
    have h1' : ¬ size < 1 := by omega
    simp [Sudoku.new, h1', h2]
  · intro h1 h2 h3
    have h1' : ¬ size < 1 := by omega
    have h2' : ¬ sec_width < 1 := by omega
    simp [Sudoku.new, h1', h2', h3]
  · intro h1 h2 h3 h4
    have h1' : ¬ size < 1 := by omega
    have h2' : ¬ sec_width < 1 := by omega
    have h3' : ¬ sec_height < 1 := by omega
    simp [Sudoku.new, h1', h2', h3', h4]
  · intro h1 h2 h3 h4
    have h1' : ¬ size < 1 := by omega
    have h2' : ¬ sec_width < 1 := by omega
    have h3' : ¬ sec_height < 1 := by omega
    refine ⟨⟨size, sec_width, sec_height,
        List.replicate size (List.replicate size none)⟩,
      by simp [Sudoku.new, h1', h2', h3', h4], rfl, rfl, rfl, ?_⟩
    intro col row hcol hrow
    unfold Sudoku.get
    dsimp only
    have e1 : (List.replicate size (List.replicate size (none : Option Nat))).getD row []
        = List.replicate size none := by
      rw [List.getD_eq_getElem _ _ (by simpa using hrow), List.getElem_replicate]
    rw [e1, List.getD_eq_getElem _ _ (by simpa using hcol), List.getElem_replicate]

/-- Witness for C1: all five construction outcomes at concrete inputs. -/
theorem new_construction_spec_witness :
    Sudoku.new 0 2 2 = .error .InvalidSize ∧
    Sudoku.new 4 0 2 = .error .InvalidSecWidth ∧
    Sudoku.new 4 2 0 = .error .InvalidSecHeight ∧
    Sudoku.new 5 2 2 = .error .InvalidCombination ∧
    (Sudoku.new 4 2 2).isOk = true := by
  refine ⟨(new_construction_spec 0 2 2).1 (by decide),
    (new_construction_spec 4 0 2).2.1 (by decide) (by decide),
    (new_construction_spec 4 2 0).2.2.1 (by decide) (by decide) (by decide),
    (new_construction_spec 5 2 2).2.2.2.1 (by decide) (by decide) (by decide) (by decide),
    ?_⟩
  obtain ⟨su, hok, -⟩ :=
    (new_construction_spec 4 2 2).2.2.2.2 (by decide) (by decide) (by decide) (by decide)
  rw [hok]
  rfl

/-- Claim C2: `is_solved()` is `true` iff for every candidate value `v ∈
[1, size]` every row's, every column's and every section's count of `v` is
exactly 1 (a section being addressed by any in-range cell it contains); in
particular an all-empty board is not solved, and a board with a value
duplicated in some row, column or section is not solved. -/
theorem is_solved_spec (su : Sudoku) (h : su.WellFormed) :
    (su.is_solved = true ↔ ∀ v, 1 ≤ v → v ≤ su.size →
        (∀ row, row < su.size → su.count_in_row row v = 1) ∧
        (∀ col, col < su.size → su.count_in_col col v = 1) ∧
        (∀ col row, col < su.size → row < su.size →
          su.count_in_sec col row v = 1)) ∧
    ((∀ col row, col < su.size → row < su.size → su.get col row = none) →
      su.is_solved = false) ∧
    (∀ v row, 1 ≤ v → v ≤ su.size → row < su.size →
      2 ≤ su.count_in_row row v → su.is_solved = false) ∧
    (∀ v col, 1 ≤ v → v ≤ su.size → col < su.size →
      2 ≤ su.count_in_col col v → su.is_solved = false) ∧
    (∀ v col row, 1 ≤ v → v ≤ su.size → col < su.size → row < su.size →
      2 ≤ su.count_in_sec col row v → su.is_solved = false) := by
  obtain ⟨hs, hw, hh, hmul, hlen, hrows⟩ := h
  have hht : su.height = su.size := hlen
  have hwd : su.width = su.size := Sudoku.width_eq su hlen hrows
  have main : su.is_solved = true ↔ (∀ v, 1 ≤ v → v ≤ su.size →
      (∀ row, row < su.size → su.count_in_row row v = 1) ∧
      (∀ col, col < su.size → su.count_in_col col v = 1) ∧
      (∀ col row, col < su.size → row < su.size →
        su.count_in_sec col row v = 1)) := by
    unfold Sudoku.is_solved
    rw [hht, hwd]
    simp only [List.all_eq_true, Bool.and_eq_true, beq_iff_eq, List.mem_range,
      List.mem_filter, List.mem_range'_1, decide_eq_true_eq]
    constructor
    · intro hall v hv1 hv2
      obtain ⟨⟨hrow, hcol⟩, hsec⟩ := hall v ⟨hv1, by omega⟩
      refine ⟨hrow, hcol, ?_⟩
      intro col row hc hr
      rw [Sudoku.count_in_sec_corner su col row v hw hh]
      have hcle : col / su.sec_width * su.sec_width ≤ col :=
        Nat.div_mul_le_self col su.sec_width
      have hrle : row / su.sec_height * su.sec_height ≤ row :=
        Nat.div_mul_le_self row su.sec_height
      exact hsec (row / su.sec_height * su.sec_height)
        ⟨by omega, Nat.mul_mod_left _ _⟩
        (col / su.sec_width * su.sec_width)
        ⟨by omega, Nat.mul_mod_left _ _⟩
    · intro hall v hv
      obtain ⟨hv1, hv2⟩ := hv
      refine ⟨⟨(hall v hv1 (by omega)).1, (hall v hv1 (by omega)).2.1⟩, ?_⟩
      intro row hrmem col hcmem
      exact (hall v hv1 (by omega)).2.2 col row hcmem.1 hrmem.1
  refine ⟨main, ?_, ?_, ?_, ?_⟩
  · intro hempty
    rw [Bool.eq_false_iff]
    intro htrue
    have h1 := ((main.mp htrue) 1 (le_refl 1) hs).1 0 (by omega)
    have h0 : su.count_in_row 0 1 = 0 :=
      (Sudoku.count_in_row_eq_zero su 0 1 hlen hrows).mpr
        (fun c hc => by rw [hempty c 0 hc (by omega)]; simp)
    omega
  · intro v row hv1 hv2 hrow hcnt
    rw [Bool.eq_false_iff]
    intro htrue
    have h1 := ((main.mp htrue) v hv1 hv2).1 row hrow
    omega
  · intro v col hv1 hv2 hcol hcnt
    rw [Bool.eq_false_iff]
    intro htrue
    have h1 := ((main.mp htrue) v hv1 hv2).2.1 col hcol
    omega
  · intro v col row hv1 hv2 hcol hrow hcnt
    rw [Bool.eq_false_iff]
    intro htrue
    have h1 := ((main.mp htrue) v hv1 hv2).2.2 col row hcol hrow
    omega

/-- Witness for C2: a board with a duplicated `1` in row 0 is not solved. -/
theorem is_solved_spec_witness : boardB.is_solved = false :=
  (is_solved_spec boardB (by decide)).2.2.1 1 0 (by decide) (by decide) (by decide)
    (by decide)

/-- Claim C3: `can_place_value(col, row, v)` is `true` whenever the cell
already holds `v`; otherwise it is `true` iff the sum of the column, row
and section counts of `v` is zero, i.e. iff `v` appears nowhere in that
row, column or section. -/
theorem can_place_value_spec (su : Sudoku) (h : su.WellFormed) (col row v : Nat)
    (_hc : col < su.size) (_hr : row < su.size) :
    (su.get col row = some v → su.can_place_value col row v = true) ∧
    (su.get col row ≠ some v →
      ((su.can_place_value col row v = true ↔
          su.count_in_col col v + su.count_in_row row v
            + su.count_in_sec col row v = 0) ∧
        (su.count_in_col col v + su.count_in_row row v
            + su.count_in_sec col row v = 0 ↔
          (∀ c, c < su.size → su.get c row ≠ some v) ∧
          (∀ r, r < su.size → su.get col r ≠ some v) ∧
          (∀ c r, col / su.sec_width * su.sec_width ≤ c →
            c < col / su.sec_width * su.sec_width + su.sec_width →
            row / su.sec_height * su.sec_height ≤ r →
            r < row / su.sec_height * su.sec_height + su.sec_height →
            su.get c r ≠ some v)))) := by
  obtain ⟨hs, hw, hh, hmul, hlen, hrows⟩ := h
  constructor
  · intro hsame
    unfold Sudoku.can_place_value
    rw [if_pos hsame]
  · intro hdiff
    constructor
    · unfold Sudoku.can_place_value
      rw [if_neg hdiff]
      simp
    · constructor
      · intro hsum
        refine ⟨(Sudoku.count_in_row_eq_zero su row v hlen hrows).mp (by omega),
          (Sudoku.count_in_col_eq_zero su col v hlen).mp (by omega),
          (Sudoku.count_in_sec_eq_zero su col row v hw hh).mp (by omega)⟩
      · intro hno
        have h1 := (Sudoku.count_in_row_eq_zero su row v hlen hrows).mpr hno.1
        have h2 := (Sudoku.count_in_col_eq_zero su col v hlen).mpr hno.2.1
        have h3 := (Sudoku.count_in_sec_eq_zero su col row v hw hh).mpr hno.2.2
        omega

/-- Witness for C3: on `boardB`, placing `2` at `(1, 3)` conflicts with the
`2` already in that row (and section), so `can_place_value` is false. -/
theorem can_place_value_spec_witness : boardB.can_place_value 1 3 2 = false := by
  have hspec := (can_place_value_spec boardB (by decide) 1 3 2 (by decide)
    (by decide)).2 (by decide)
  have hsum : ¬ (boardB.count_in_col 1 2 + boardB.count_in_row 3 2
      + boardB.count_in_sec 1 3 2 = 0) := by decide
  rw [Bool.eq_false_iff]
  intro htrue
  exact hsum (hspec.1.mp htrue)

/-- Counterexample to C5 as stated: `set` performs no value-domain check.
On the 1×1 board produced by `Sudoku::new(1, 1, 1)`, `set(0, 0, Some(5))`
succeeds and the out-of-domain value `5 > size = 1` is observable via
`get`. -/
theorem set_domain_check_counterexample :
    Sudoku.new 1 1 1 = .ok boardC ∧
    (boardC.set 0 0 (some 5)).get 0 0 = some 5 ∧
    boardC.size = 1 ∧ ¬ (5 ≤ boardC.size) := by
  refine ⟨rfl, by decide, rfl, by decide⟩

/-- Claim C5, amended: `set(col, row, value)` stores `value` unconditionally:
an empty value clears the cell and any present value — in or out of
`[1, size]` — is stored and observable via `get`; no domain check is
performed and the operation never fails. -/
theorem set_stores_unconditionally (su : Sudoku) (h : su.WellFormed)
    (col row : Nat) (hc : col < su.size) (hr : row < su.size) (v : Option Nat) :
    (su.set col row v).get col row = v := by
  obtain ⟨hs, hw, hh, hmul, hlen, hrows⟩ := h
  have hrl : row < su.grid.length := by omega
  have hcl : col < (su.grid.getD row []).length := by
    rw [hrows _ (getD_mem_of_lt su.grid row [] hrl)]
    omega
  exact Sudoku.get_set_self su col row v hrl hcl

/-- Witness for C5 (amended): storing the in-domain value 3 at `(2, 1)` of
`boardB` is observable via `get`. -/
theorem set_stores_unconditionally_witness :
    (boardB.set 2 1 (some 3)).get 2 1 = some 3 :=
  set_stores_unconditionally boardB (by decide) 2 1 (by decide) (by decide) (some 3)

/-- Claim C6: `placeIfPossible(col, row, value)` performs the placement and
signals success when `canPlaceValue` holds; otherwise it performs no
mutation and signals failure as an ordinary boolean result (the result
type `Sudoku × Bool` carries no error/exception case). -/
theorem place_if_possible_spec (su : Sudoku) (col row value : Nat) :
    (su.can_place_value col row value = true →
      su.place_if_possible col row value = (su.set col row (some value), true)) ∧
    (su.can_place_value col row value = false →
      su.place_if_possible col row value = (su, false)) := by
  constructor
  · intro hcan
    unfold Sudoku.place_if_possible
    rw [if_pos hcan]
  · intro hcan
    unfold Sudoku.place_if_possible
    rw [if_neg (by simp [hcan])]

/-- Witness for C6: on `boardB`, placing `2` at `(1, 3)` is rejected and
the board is returned unchanged. -/
theorem place_if_possible_spec_witness :
    boardB.place_if_possible 1 3 2 = (boardB, false) :=
  (place_if_possible_spec boardB 1 3 2).2 (by decide)

/-- Claim C8: After `set(col, row, v)` at in-range coordinates with `v` either
empty or a value in `[1, size]`: `get(col, row)` returns exactly `v`, every
other in-range cell is unchanged, and the three dimension fields are
unchanged. -/
theorem set_get_frame_spec (su : Sudoku) (h : su.WellFormed) (col row : Nat)
    (hc : col < su.size) (hr : row < su.size) (v : Option Nat)
    (_hv : ∀ w, v = some w → 1 ≤ w ∧ w ≤ su.size) :
    (su.set col row v).get col row = v ∧
    (∀ c r, c < su.size → r < su.size → ¬ (c = col ∧ r = row) →
      (su.set col row v).get c r = su.get c r) ∧
    (su.set col row v).size = su.size ∧
    (su.set col row v).sec_width = su.sec_width ∧
    (su.set col row v).sec_height = su.sec_height := by
  obtain ⟨hs, hw, hh, hmul, hlen, hrows⟩ := h
  have hrl : row < su.grid.length := by omega
  have hcl : col < (su.grid.getD row []).length := by
    rw [hrows _ (getD_mem_of_lt su.grid row [] hrl)]
    omega
  refine ⟨Sudoku.get_set_self su col row v hrl hcl, ?_, rfl, rfl, rfl⟩
  intro c r _ _ hne
  exact Sudoku.get_set_ne su col row c r v hne

/-- Witness for C8: setting `(2, 1)` of `boardB` to 3 leaves `(0, 0)`
unchanged. -/
theorem set_get_frame_spec_witness :
    (boardB.set 2 1 (some 3)).get 0 0 = boardB.get 0 0 :=
  (set_get_frame_spec boardB (by decide) 2 1 (by decide) (by decide) (some 3)
      (by intro w hw; cases hw; exact ⟨by decide, by decide⟩)).2.1
    0 0 (by decide) (by decide) (by decide)

theorem length_flatMap_const {α β : Type} (l : List α) (f : α → List β) (m : Nat)
    (h : ∀ a ∈ l, (f a).length = m) : (l.flatMap f).length = l.length * m := by
  induction l with
  | nil => simp
  | cons a l ih =>
    simp only [List.flatMap_cons, List.length_append, List.length_cons]
    rw [h a (List.mem_cons_self a l), ih (fun b hb => h b (List.mem_cons_of_mem a hb))]
    ring

/-- Claim C4: The three views: `row_iter(row)` yields exactly the `size`
elements `get(0,row) .. get(size-1,row)` in order; `col_iter(col)` yields
exactly `get(col,0) .. get(col,size-1)`; `sec_iter(col,row)` yields exactly
the `sec_width * sec_height` elements of the section whose top-left corner
is `(⌊col/secWidth⌋*secWidth, ⌊row/secHeight⌋*secHeight)` in row-major
order.  Each run is identical for every sufficient fuel, i.e. the iterator
is exhausted after exactly that many elements. -/
theorem view_iterators_spec (su : Sudoku) (h : su.WellFormed) (col row : Nat)
    (_hc : col < su.size) (_hr : row < su.size) :
    (∀ fuel, su.size + 1 ≤ fuel →
      iterate su.rowNext fuel ⟨row, 0⟩ =
        (List.range su.size).map fun c => su.get c row) ∧
    (∀ fuel, su.size + 1 ≤ fuel →
      iterate su.colNext fuel ⟨col, 0⟩ =
        (List.range su.size).map fun r => su.get col r) ∧
    (∀ fuel, su.sec_width * su.sec_height + 1 ≤ fuel →
      iterate su.secNext fuel (su.secInit col row) =
        (List.range' (row / su.sec_height * su.sec_height) su.sec_height).flatMap
          fun r => (List.range' (col / su.sec_width * su.sec_width)
            su.sec_width).map fun c => su.get c r) ∧
    ((List.range su.size).map fun c => su.get c row).length = su.size ∧
    ((List.range su.size).map fun r => su.get col r).length = su.size ∧
    ((List.range' (row / su.sec_height * su.sec_height) su.sec_height).flatMap
      fun r => (List.range' (col / su.sec_width * su.sec_width)
        su.sec_width).map fun c => su.get c r).length =
      su.sec_width * su.sec_height := by
  obtain ⟨hs, hw, hh, hmul, hlen, hrows⟩ := h
  have hwd : su.width = su.size := Sudoku.width_eq su hlen hrows
  have hht : su.height = su.size := hlen
  have hrowbase : iterate su.rowNext (su.width + 1) ⟨row, 0⟩ =
      (List.range su.size).map fun c => su.get c row :=
    Sudoku.rowList_eq su row hlen hrows
  have hcolbase : iterate su.colNext (su.height + 1) ⟨col, 0⟩ =
      (List.range su.size).map fun r => su.get col r :=
    Sudoku.colList_eq su col hlen
  have hsecbase : iterate su.secNext (su.sec_width * su.sec_height + 1)
      (su.secInit col row) =
      (List.range' (row / su.sec_height * su.sec_height) su.sec_height).flatMap
        fun r => (List.range' (col / su.sec_width * su.sec_width)
          su.sec_width).map fun c => su.get c r :=
    Sudoku.secList_eq su col row hw hh
  have hseclen : ((List.range' (row / su.sec_height * su.sec_height)
      su.sec_height).flatMap fun r =>
        (List.range' (col / su.sec_width * su.sec_width) su.sec_width).map
          fun c => su.get c r).length = su.sec_width * su.sec_height := by
    rw [length_flatMap_const _ _ su.sec_width (fun a _ => by simp),
      List.length_range']
    exact Nat.mul_comm _ _
  refine ⟨?_, ?_, ?_, by simp, by simp, hseclen⟩
  · intro fuel hfuel
    rw [iterate_stable su.rowNext (su.width + 1) ⟨row, 0⟩
      (by rw [hrowbase]; simp; omega) fuel (by omega), hrowbase]
  · intro fuel hfuel
    rw [iterate_stable su.colNext (su.height + 1) ⟨col, 0⟩
      (by rw [hcolbase]; simp; omega) fuel (by omega), hcolbase]
  · intro fuel hfuel
    rw [iterate_stable su.secNext (su.sec_width * su.sec_height + 1)
      (su.secInit col row) (by rw [hsecbase, hseclen]; omega) fuel (by omega),
      hsecbase]

/-- Witness for C4: the three views of `boardA` at `(3, 1)`, run with more
fuel than needed, yield exactly the expected elements. -/
theorem view_iterators_spec_witness :
    iterate boardA.rowNext 9 ⟨1, 0⟩ =
      [some 3, some 4, some 1, some 2] ∧
    iterate boardA.colNext 9 ⟨3, 0⟩ =
      [some 4, some 2, some 3, some 1] ∧
    iterate boardA.secNext 9 (boardA.secInit 3 1) =
      [some 3, some 4, some 1, some 2] := by
  obtain ⟨h1, h2, h3, -⟩ :=
    view_iterators_spec boardA (by decide) 3 1 (by decide) (by decide)
  exact ⟨by rw [h1 9 (by decide)]; decide,
         by rw [h2 9 (by decide)]; decide,
         by rw [h3 9 (by decide)]; decide⟩

/-! ## Lemmas: bulk population -/

namespace Sudoku

theorem setLine_spec :
    ∀ (ws : List (List Char)) (su : Sudoku) (row col : Nat),
      su.grid.length = su.size → (∀ r ∈ su.grid, r.length = su.size) →
      ((su.setLine row col ws).isSome ↔
        ∀ w ∈ ws, (parseCell su.size w).isSome) ∧
      (∀ su2, su.setLine row col ws = some su2 →
        su2.size = su.size ∧ su2.sec_width = su.sec_width ∧
        su2.sec_height = su.sec_height ∧
        su2.grid.length = su2.size ∧ (∀ r ∈ su2.grid, r.length = su2.size) ∧
        (∀ c r, ¬ (r = row ∧ col ≤ c ∧ c < col + ws.length) →
          su2.get c r = su.get c r) ∧
        (∀ i w, ws[i]? = some w → col + i < su.size → row < su.size →
          su2.get (col + i) row = (parseCell su.size w).getD none)) := by
  intro ws
  induction ws with
  | nil =>
    intro su row col hlen hrows
    refine ⟨by simp [setLine], ?_⟩
    intro su2 h
    simp only [setLine, Option.some_inj] at h
    subst h
    refine ⟨rfl, rfl, rfl, hlen, hrows, fun c r _ => rfl, ?_⟩
    intro i w hiw
    simp at hiw
  | cons w ws ih =>
    intro su row col hlen hrows
    cases hp : parseCell su.size w with
    | none =>
      refine ⟨?_, ?_⟩
      · constructor
        · intro hsome
          simp only [setLine, hp] at hsome
          simp at hsome
        · intro hall
          have hw := hall w (List.mem_cons_self _ _)
          rw [hp] at hw
          simp at hw
      · intro su2 h
        simp only [setLine, hp] at h
        exact Option.noConfusion h
    | some entry =>
      have hshape' := set_shape su col row entry hlen hrows
      have ihs := ih (su.set col row entry) row (col + 1) hshape'.1 hshape'.2
      refine ⟨?_, ?_⟩
      · rw [show su.setLine row col (w :: ws) =
          (su.set col row entry).setLine row (col + 1) ws by
            simp only [setLine, hp]]
        rw [ihs.1]
        constructor
        · intro hall w' hw'
          rcases List.mem_cons.mp hw' with h | h
          · subst h; rw [hp]; simp
          · exact hall w' h
        · intro hall w' hw'
          exact hall w' (List.mem_cons_of_mem _ hw')
      · intro su2 h
        rw [show su.setLine row col (w :: ws) =
          (su.set col row entry).setLine row (col + 1) ws by
            simp only [setLine, hp]] at h
        obtain ⟨hf1, hf2, hf3, hg1, hg2, hframe, hindex⟩ := ihs.2 su2 h
        refine ⟨hf1, hf2, hf3, hg1, hg2, ?_, ?_⟩
        · intro c r hout
          rw [hframe c r (by
            intro hin
            obtain ⟨hr, hc1, hc2⟩ := hin
            exact hout ⟨hr, by omega, by simp only [List.length_cons]; omega⟩)]
          exact get_set_ne su col row c r entry (by
            intro hin
            obtain ⟨hc, hr⟩ := hin
            subst hc; subst hr
            exact hout ⟨rfl, le_refl _, by simp only [List.length_cons]; omega⟩)
        · intro i w' hiw hci hrow
          cases i with
          | zero =>
            simp only [List.getElem?_cons_zero, Option.some_inj] at hiw
            subst hiw
            rw [Nat.add_zero]
            rw [hframe col row (by intro hin; omega)]
            rw [get_set_self su col row entry (by omega)
              (by rw [hrows _ (getD_mem_of_lt su.grid row [] (by omega))]; omega)]
            rw [hp]
            rfl
          | succ i =>
            simp only [List.getElem?_cons_succ] at hiw
            have := hindex i w' hiw (show col + 1 + i < su.size by omega)
              (show row < su.size from hrow)
            rw [show col + 1 + i = col + (i + 1) by omega] at this
            exact this

theorem populateLines_spec :
    ∀ (lines : List (List Char)) (su : Sudoku) (row : Nat),
      su.grid.length = su.size → (∀ r ∈ su.grid, r.length = su.size) →
      ((su.populateLines row lines).isSome ↔
        ∀ line ∈ lines, (splitWhitespaceTokens line).length = su.size ∧
          ∀ w ∈ splitWhitespaceTokens line, (parseCell su.size w).isSome) ∧
      (∀ su2, su.populateLines row lines = some su2 →
        su2.size = su.size ∧ su2.sec_width = su.sec_width ∧
        su2.sec_height = su.sec_height ∧
        su2.grid.length = su2.size ∧ (∀ r ∈ su2.grid, r.length = su2.size) ∧
        (∀ c r, r < row → su2.get c r = su.get c r) ∧
        (∀ i line c w, lines[i]? = some line →
          (splitWhitespaceTokens line)[c]? = some w → row + i < su.size →
          su2.get c (row + i) = (parseCell su.size w).getD none)) := by
  intro lines
  induction lines with
  | nil =>
    intro su row hlen hrows
    refine ⟨by simp [populateLines], ?_⟩
    intro su2 h
    simp only [populateLines, Option.some_inj] at h
    subst h
    refine ⟨rfl, rfl, rfl, hlen, hrows, fun c r _ => rfl, ?_⟩
    intro i line c w hline
    simp at hline
  | cons line rest ih =>
    intro su row hlen hrows
    by_cases hlenline : (splitWhitespaceTokens line).length = su.size
    · cases hset : su.setLine row 0 (splitWhitespaceTokens line) with
      | none =>
        have hiff := (Sudoku.setLine_spec (splitWhitespaceTokens line) su row 0
          hlen hrows).1
        rw [hset] at hiff
        have hfail : ¬ ∀ w ∈ splitWhitespaceTokens line,
            (parseCell su.size w).isSome = true := by
          intro hall
          have := hiff.mpr hall
          simp at this
        push_neg at hfail
        obtain ⟨w, hwmem, hwbad⟩ := hfail
        refine ⟨?_, ?_⟩
        · constructor
          · intro hsome
            simp only [populateLines, if_neg (by omega : ¬ (splitWhitespaceTokens
              line).length ≠ su.size), hset] at hsome
            simp at hsome
          · intro hall
            have := (hall line (List.mem_cons_self _ _)).2 w hwmem
            simp [this] at hwbad
        · intro su2 h
          simp only [populateLines, if_neg (by omega : ¬ (splitWhitespaceTokens
            line).length ≠ su.size), hset] at h
          exact Option.noConfusion h
      | some su1 =>
        obtain ⟨hspec1, hspec2⟩ :=
          Sudoku.setLine_spec (splitWhitespaceTokens line) su row 0 hlen hrows
        obtain ⟨hf1, hf2, hf3, hg1, hg2, hframe1, hindex1⟩ := hspec2 su1 hset
        have hstep : su.populateLines row (line :: rest) =
            su1.populateLines (row + 1) rest := by
          simp only [populateLines, if_neg (by omega : ¬ (splitWhitespaceTokens
            line).length ≠ su.size), hset]
        obtain ⟨hihs, hih2⟩ := ih su1 (row + 1) (hf1 ▸ hg1) (fun r hr => hf1 ▸ hg2 r hr)
        refine ⟨?_, ?_⟩
        · rw [hstep, hihs, hf1]
          constructor
          · intro hall line' hline'
            rcases List.mem_cons.mp hline' with h | h
            · subst h
              refine ⟨hlenline, ?_⟩
              intro w hw
              have := hspec1.mp (by rw [hset]; rfl)
              exact this w hw
            · exact hall line' h
          · intro hall line' hline'
            exact hall line' (List.mem_cons_of_mem _ hline')
        · intro su2 h
          rw [hstep] at h
          obtain ⟨hf1', hf2', hf3', hg1', hg2', hframe2, hindex2⟩ := hih2 su2 h
          refine ⟨by rw [hf1', hf1], by rw [hf2', hf2], by rw [hf3', hf3],
            hg1', hg2', ?_, ?_⟩
          · intro c r hr
            rw [hframe2 c r (by omega)]
            exact hframe1 c r (by intro hin; omega)
          · intro i line' c w hline' hw hguard
            cases i with
            | zero =>
              simp only [List.getElem?_cons_zero, Option.some_inj] at hline'
              subst hline'
              rw [Nat.add_zero] at hguard ⊢
              rw [hframe2 c row (by omega)]
              have hc : c < (splitWhitespaceTokens line).length := by
                obtain ⟨hc, -⟩ := List.getElem?_eq_some.mp hw
                exact hc
              have := hindex1 c w (by simpa using hw)
                (by omega) (by omega)
              simpa using this
            | succ i =>
              simp only [List.getElem?_cons_succ] at hline'
              have := hindex2 i line' c w hline' hw
                (show row + 1 + i < su1.size by rw [hf1]; omega)
              rw [show row + 1 + i = row + (i + 1) by omega] at this
              rw [this, hf1]
    · refine ⟨?_, ?_⟩
      · constructor
        · intro hsome
          simp only [populateLines, if_pos hlenline] at hsome
          simp at hsome
        · intro hall
          exact absurd (hall line (List.mem_cons_self _ _)).1 hlenline
      · intro su2 h
        simp only [populateLines, if_pos hlenline] at h
        exact Option.noConfusion h

end Sudoku

/-- A fresh 2×2 board with 2×1 sections (as returned by
`Sudoku::new(2, 2, 1)`). -/
def boardD : Sudoku := ⟨2, 2, 1, [[none, none], [none, none]]⟩

/-- Claim C7: `populate_from_str` splits the text on `'\n'` and fails fatally
(modelled as `none`) unless there are exactly `size` lines; each line's
whitespace-separated tokens must number exactly `size`; token `"_"` means
empty, a token parsing as a positive integer `≤ size` means that value, any
non-numeric or out-of-range numeric token is fatal; on success the cells
hold the parsed entries in row-major order. -/
theorem populate_from_str_spec (su : Sudoku) (h : su.WellFormed) (s : List Char) :
    ((su.populate_from_str s).isSome ↔
      (splitOnNewline s).length = su.size ∧
      ∀ line ∈ splitOnNewline s, (splitWhitespaceTokens line).length = su.size ∧
        ∀ w ∈ splitWhitespaceTokens line, (parseCell su.size w).isSome) ∧
    (∀ su2, su.populate_from_str s = some su2 →
      su2.size = su.size ∧ su2.sec_width = su.sec_width ∧
      su2.sec_height = su.sec_height ∧
      ∀ row line c w, (splitOnNewline s)[row]? = some line →
        (splitWhitespaceTokens line)[c]? = some w →
        su2.get c row = (parseCell su.size w).getD none) ∧
    (parseCell su.size ['_'] = some none) ∧
    (∀ w v, parseU32 w = some v → 1 ≤ v → v ≤ su.size →
      parseCell su.size w = some (some v)) ∧
    (∀ w, w ≠ ['_'] → parseU32 w = none → parseCell su.size w = none) ∧
    (∀ w v, parseU32 w = some v → ¬ (1 ≤ v ∧ v ≤ su.size) →
      parseCell su.size w = none) := by
  obtain ⟨hs, hw, hh, hmul, hlen, hrows⟩ := h
  obtain ⟨hlines_iff, hlines_some⟩ :=
    Sudoku.populateLines_spec (splitOnNewline s) su 0 hlen hrows
  refine ⟨?_, ?_, ?_, ?_, ?_, ?_⟩
  · by_cases hcnt : (splitOnNewline s).length = su.size
    · rw [show su.populate_from_str s = su.populateLines 0 (splitOnNewline s) by
        simp only [Sudoku.populate_from_str, if_neg (by omega :
          ¬ (splitOnNewline s).length ≠ su.size)]]
      rw [hlines_iff]
      constructor
      · intro hall
        exact ⟨hcnt, hall⟩
      · intro hall
        exact hall.2
    · rw [show su.populate_from_str s = none by
        simp only [Sudoku.populate_from_str, if_pos (by omega :
          (splitOnNewline s).length ≠ su.size)]]
      simp only [Option.isSome_none, Bool.false_eq_true, false_iff]
      intro hall
      exact hcnt hall.1
  · intro su2 hsome
    have hcnt : (splitOnNewline s).length = su.size := by
      by_contra hcnt
      simp only [Sudoku.populate_from_str, if_pos (by omega :
        (splitOnNewline s).length ≠ su.size)] at hsome
      exact Option.noConfusion hsome
    rw [show su.populate_from_str s = su.populateLines 0 (splitOnNewline s) by
      simp only [Sudoku.populate_from_str, if_neg (by omega :
        ¬ (splitOnNewline s).length ≠ su.size)]] at hsome
    obtain ⟨hf1, hf2, hf3, hg1, hg2, hframe, hindex⟩ := hlines_some su2 hsome
    refine ⟨hf1, hf2, hf3, ?_⟩
    intro row line c w hline hw'
    have hrow : row < su.size := by
      obtain ⟨hrow, -⟩ := List.getElem?_eq_some.mp hline
      omega
    have := hindex row line c w hline hw' (by omega)
    simpa using this
  · simp [parseCell]
  · intro w v hp h1 h2
    have hwne : w ≠ ['_'] := by
      intro hwe
      subst hwe
      rw [show parseU32 ['_'] = none from rfl] at hp
      exact Option.noConfusion hp
    simp only [parseCell, if_neg hwne, hp]
    rw [if_pos ⟨h1, h2⟩]
  · intro w hwne hp
    simp only [parseCell, if_neg hwne, hp]
  · intro w v hp hout
    have hwne : w ≠ ['_'] := by
      intro hwe
      subst hwe
      rw [show parseU32 ['_'] = none from rfl] at hp
      exact Option.noConfusion hp
    simp only [parseCell, if_neg hwne, hp]
    rw [if_neg (by omega)]

/-- Witness for C7: populating the fresh 2×2 board from `"1 2\n2 1"`
succeeds. -/
theorem populate_from_str_spec_witness :
    (boardD.populate_from_str "1 2\n2 1".data).isSome = true :=
  (populate_from_str_spec boardD (by decide) "1 2\n2 1".data).1.mpr (by decide)

/-! ## Reachable boards (C9) -/

/-- Boards obtainable through the public interface: validated construction
followed by `set` and successful bulk population.  (An unsuccessful
population or an out-of-range `set` panics in Rust and yields no board.) -/
inductive Reachable : Sudoku → Prop where
  | new : ∀ (size sec_width sec_height : Nat) (su : Sudoku),
      Sudoku.new size sec_width sec_height = .ok su → Reachable su
  | set : ∀ (su : Sudoku) (col row : Nat) (v : Option Nat),
      Reachable su → Reachable (su.set col row v)
  | populate : ∀ (su : Sudoku) (s : List Char) (su2 : Sudoku),
      Reachable su → su.populate_from_str s = some su2 → Reachable su2

/-- Claim C9: Every board reachable through the public interface keeps exactly
`size` rows of exactly `size` cells; consequently `get` (modelled with its
fault made explicit as `get?`) succeeds exactly on `col, row ∈ [0, size)` —
out-of-range access is the fatal `none`, not a recoverable value. -/
theorem reachable_shape_spec (su : Sudoku) (h : Reachable su) :
    (su.grid.length = su.size ∧ ∀ r ∈ su.grid, r.length = su.size) ∧
    (∀ col row, (col < su.size ∧ row < su.size) ↔ (su.get? col row).isSome = true) ∧
    (∀ col row, col < su.size → row < su.size →
      su.get? col row = some (su.get col row)) := by
  have hshape : su.grid.length = su.size ∧ ∀ r ∈ su.grid, r.length = su.size := by
    induction h with
    | new size sec_width sec_height su hok =>
      simp only [Sudoku.new] at hok
      split at hok
      · exact Except.noConfusion hok
      · split at hok
        · exact Except.noConfusion hok
        · split at hok
          · exact Except.noConfusion hok
          · split at hok
            · exact Except.noConfusion hok
            · injection hok with hok
              subst hok
              refine ⟨by simp, ?_⟩
              intro r hr
              rw [List.eq_of_mem_replicate hr]
              simp
    | set su col row v _ ih =>
      exact Sudoku.set_shape su col row v ih.1 ih.2
    | populate su s su2 _ hpop ih =>
      have hcnt : (splitOnNewline s).length = su.size := by
        by_contra hcnt
        simp only [Sudoku.populate_from_str, if_pos (by omega :
          (splitOnNewline s).length ≠ su.size)] at hpop
        exact Option.noConfusion hpop
      rw [show su.populate_from_str s = su.populateLines 0 (splitOnNewline s) by
        simp only [Sudoku.populate_from_str, if_neg (by omega :
          ¬ (splitOnNewline s).length ≠ su.size)]] at hpop
      obtain ⟨hf1, hf2, hf3, hg1, hg2, -⟩ :=
        (Sudoku.populateLines_spec (splitOnNewline s) su 0 ih.1 ih.2).2 su2 hpop
      exact ⟨hg1, hg2⟩
  obtain ⟨hlen, hrows⟩ := hshape
  refine ⟨⟨hlen, hrows⟩, ?_, ?_⟩
  · intro col row
    constructor
    · rintro ⟨hc, hr⟩
      have hr2 : row < su.grid.length := by omega
      have hrow : su.grid[row]? = some su.grid[row] :=
        List.getElem?_eq_getElem hr2
      have hrl : su.grid[row].length = su.size :=
        hrows _ (List.getElem_mem hr2)
      simp only [Sudoku.get?, hrow]
      rw [List.getElem?_eq_getElem (by omega)]
      rfl
    · intro hsome
      unfold Sudoku.get? at hsome
      cases hrow : su.grid[row]? with
      | none => rw [hrow] at hsome; simp at hsome
      | some r =>
        rw [hrow] at hsome
        have hsome2 : (r[col]?).isSome = true := hsome
        obtain ⟨hr, hre⟩ := List.getElem?_eq_some.mp hrow
        have hrl : r.length = su.size := by
          rw [← hre]
          exact hrows _ (List.getElem_mem hr)
        cases hcol : r[col]? with
        | none => rw [hcol] at hsome2; simp at hsome2
        | some x =>
          obtain ⟨hc, -⟩ := List.getElem?_eq_some.mp hcol
          exact ⟨by omega, by omega⟩
  · intro col row hc hr
    have hr2 : row < su.grid.length := by omega
    have hrow : su.grid[row]? = some su.grid[row] :=
      List.getElem?_eq_getElem hr2
    have hrl : su.grid[row].length = su.size :=
      hrows _ (List.getElem_mem hr2)
    have hgd : su.grid.getD row [] = su.grid[row] :=
      List.getD_eq_getElem _ _ hr2
    simp only [Sudoku.get?, hrow]
    rw [List.getElem?_eq_getElem (by omega)]
    unfold Sudoku.get
    rw [hgd, List.getD_eq_getElem _ _ (by omega)]

/-- Witness for C9: the reachable 1×1 board has a `1 × 1` store, in-range
access succeeds and out-of-range access faults. -/
theorem reachable_shape_spec_witness :
    boardC.grid.length = boardC.size ∧
    (boardC.get? 0 0).isSome = true ∧
    ¬ ((boardC.get? 1 0).isSome = true) := by
  have h := reachable_shape_spec boardC (Reachable.new 1 1 1 boardC rfl)
  refine ⟨h.1.1, (h.2.1 0 0).mp ⟨by decide, by decide⟩, ?_⟩
  intro hsome
  exact absurd ((h.2.1 1 0).mpr hsome).1 (by decide)

/-! ## Lemmas: the renderer -/

/-- The non-faulting value of `rowPieces` from an arbitrary starting column
index, built from the reference cells, for the inductions below. -/
def piecesFrom (su : Sudoku) (w n : Nat) (vs : List (Option Nat)) : List (List Char) :=
  (vs.enumFrom n).flatMap fun p =>
    if 0 < p.1 ∧ p.1 % su.sec_width = 0 then [['│'], specCell w p.2]
    else [specCell w p.2]

theorem cellChars_some (w : Nat) (v : Option Nat)
    (h : ∀ c, v = some c → (Nat.toDigits 10 c).length ≤ w) :
    cellChars w v = some (specCell w v) := by
  cases v with
  | none => rfl
  | some c =>
    show (if (Nat.toDigits 10 c).length ≤ w then
        some (List.replicate (w - (Nat.toDigits 10 c).length) ' '
          ++ Nat.toDigits 10 c)
      else none) =
      some (List.replicate (w - (Nat.toDigits 10 c).length) ' '
        ++ Nat.toDigits 10 c)
    rw [if_pos (h c rfl)]

theorem rowPieces_some (su : Sudoku) :
    ∀ (vs : List (Option Nat)) (n : Nat),
      (∀ v ∈ vs, ∀ c, v = some c →
        (Nat.toDigits 10 c).length ≤ (Nat.toDigits 10 su.size).length) →
      su.rowPieces n vs =
        some (piecesFrom su (Nat.toDigits 10 su.size).length n vs) := by
  intro vs
  induction vs with
  | nil => intro n _; rfl
  | cons v t ih =>
    intro n h
    simp only [Sudoku.rowPieces]
    rw [cellChars_some _ v (fun c hc => h v (List.mem_cons_self _ _) c hc)]
    rw [ih (n + 1) (fun v' hv' c hc => h v' (List.mem_cons_of_mem _ hv') c hc)]
    rfl

theorem piecesFrom_nil (su : Sudoku) (w n : Nat) : piecesFrom su w n [] = [] := rfl

theorem piecesFrom_cons (su : Sudoku) (w n : Nat) (v : Option Nat)
    (t : List (Option Nat)) :
    piecesFrom su w n (v :: t) =
      (if 0 < n ∧ n % su.sec_width = 0 then [['│'], specCell w v]
       else [specCell w v]) ++ piecesFrom su w (n + 1) t := by
  simp only [piecesFrom, List.enumFrom_cons, List.flatMap_cons]

theorem piecesFrom_ne_nil (su : Sudoku) (w n : Nat) (vs : List (Option Nat))
    (hvs : vs ≠ []) : piecesFrom su w n vs ≠ [] := by
  cases vs with
  | nil => exact absurd rfl hvs
  | cons v t =>
    rw [piecesFrom_cons]
    by_cases h : 0 < n ∧ n % su.sec_width = 0 <;> simp [h]

theorem intercalate_cons_of_ne_nil (s a : List Char) (rest : List (List Char))
    (h : rest ≠ []) :
    List.intercalate s (a :: rest) = a ++ s ++ List.intercalate s rest := by
  obtain ⟨b, t, rfl⟩ : ∃ b t, rest = b :: t := by
    cases rest with
    | nil => exact absurd rfl h
    | cons b t => exact ⟨b, t, rfl⟩
  simp [List.intercalate]

theorem intercalate_singleton_list (s a : List Char) :
    List.intercalate s [a] = a := by
  simp [List.intercalate]

theorem rowBody_eq (su : Sudoku) (w : Nat) :
    ∀ (vs : List (Option Nat)) (n : Nat), 1 ≤ n → vs ≠ [] →
      [' '] ++ List.intercalate [' '] (piecesFrom su w n vs) =
        su.specRowBody w n vs := by
  intro vs
  induction vs with
  | nil => intro n _ h2; exact absurd rfl h2
  | cons v t ih =>
    intro n h1 _
    rw [piecesFrom_cons]
    by_cases hn : n % su.sec_width = 0
    · rw [if_pos ⟨h1, hn⟩]
      by_cases ht : t = []
      · subst ht
        rw [piecesFrom_nil, List.append_nil]
        rw [intercalate_cons_of_ne_nil _ _ _ (by simp),
          intercalate_singleton_list]
        simp [Sudoku.specRowBody, if_neg (by omega : ¬ n = 0), hn]
      · rw [show ([['│'], specCell w v] : List (List Char)) ++
            piecesFrom su w (n + 1) t =
            ['│'] :: specCell w v :: piecesFrom su w (n + 1) t from rfl]
        rw [intercalate_cons_of_ne_nil _ _ _ (by simp)]
        rw [intercalate_cons_of_ne_nil _ _ _ (piecesFrom_ne_nil su w (n + 1) t ht)]
        rw [show su.specRowBody w n (v :: t) =
          (if n = 0 then [] else if n % su.sec_width = 0 then [' ', '│', ' ']
            else [' ']) ++ specCell w v ++ su.specRowBody w (n + 1) t from rfl]
        rw [if_neg (by omega : ¬ n = 0), if_pos hn,
          ← ih (n + 1) (by omega) ht]
        simp [List.append_assoc]
    · rw [if_neg (by intro hc; exact hn hc.2)]
      by_cases ht : t = []
      · subst ht
        rw [piecesFrom_nil, List.append_nil]
        rw [show ([specCell w v] : List (List Char)) = [specCell w v] from rfl,
          intercalate_singleton_list]
        simp [Sudoku.specRowBody, if_neg (by omega : ¬ n = 0), hn]
      · rw [show ([specCell w v] : List (List Char)) ++ piecesFrom su w (n + 1) t =
            specCell w v :: piecesFrom su w (n + 1) t from rfl]
        rw [intercalate_cons_of_ne_nil _ _ _ (piecesFrom_ne_nil su w (n + 1) t ht)]
        rw [show su.specRowBody w n (v :: t) =
          (if n = 0 then [] else if n % su.sec_width = 0 then [' ', '│', ' ']
            else [' ']) ++ specCell w v ++ su.specRowBody w (n + 1) t from rfl]
        rw [if_neg (by omega : ¬ n = 0), if_neg hn,
          ← ih (n + 1) (by omega) ht]
        simp [List.append_assoc]

theorem intercalate_piecesFrom_zero (su : Sudoku) (w : Nat)
    (cells : List (Option Nat)) :
    List.intercalate [' '] (piecesFrom su w 0 cells) =
      su.specRowBody w 0 cells := by
  cases hc : cells with
  | nil => simp [piecesFrom_nil, List.intercalate, Sudoku.specRowBody]
  | cons v t =>
    rw [piecesFrom_cons, if_neg (by omega : ¬ (0 < 0 ∧ 0 % su.sec_width = 0))]
    by_cases ht : t = []
    · subst ht
      rw [piecesFrom_nil, List.append_nil, intercalate_singleton_list]
      simp [Sudoku.specRowBody]
    · rw [show ([specCell w v] : List (List Char)) ++ piecesFrom su w 1 t =
          specCell w v :: piecesFrom su w 1 t from rfl]
      rw [intercalate_cons_of_ne_nil _ _ _
        (piecesFrom_ne_nil su _ 1 t ht)]
      rw [show su.specRowBody w 0 (v :: t) =
        (if (0 : Nat) = 0 then [] else if 0 % su.sec_width = 0 then [' ', '│', ' ']
          else [' ']) ++ specCell w v ++
          su.specRowBody w 1 t from rfl]
      rw [if_pos rfl, ← rowBody_eq su _ t 1 (le_refl 1) ht]
      simp [List.append_assoc]

theorem rowOutput_some (su : Sudoku) (row : Nat)
    (hdig : ∀ v ∈ su.grid.getD row [], ∀ c, v = some c →
      (Nat.toDigits 10 c).length ≤ (Nat.toDigits 10 su.size).length) :
    su.rowOutput row = some (su.specRowLine row) := by
  unfold Sudoku.rowOutput Sudoku.specRowLine
  rw [rowPieces_some su _ 0 hdig]
  show some (['│', ' '] ++ List.intercalate [' ']
      (piecesFrom su (Nat.toDigits 10 su.size).length 0 (su.grid.getD row []))
      ++ [' ', '│']) =
    some (['│', ' '] ++
      su.specRowBody (Nat.toDigits 10 su.size).length 0 (su.grid.getD row [])
      ++ [' ', '│'])
  rw [intercalate_piecesFrom_zero]

theorem optionList_map_some {α β : Type} (l : List α) (f : α → Option β)
    (g : α → β) (h : ∀ a ∈ l, f a = some (g a)) :
    optionList (l.map f) = some (l.map g) := by
  induction l with
  | nil => rfl
  | cons a t ih =>
    rw [List.map_cons, List.map_cons]
    rw [show (f a :: t.map f) = f a :: t.map f from rfl]
    rw [h a (List.mem_cons_self _ _)]
    simp only [optionList]
    rw [ih (fun b hb => h b (List.mem_cons_of_mem _ hb))]

theorem mem_sepPositions (ln : List Char) (i : Nat) :
    i ∈ sepPositions ln ↔ ln[i]? = some '│' := by
  unfold sepPositions
  simp only [List.mem_filter, List.mem_range, decide_eq_true_eq]
  constructor
  · exact fun h => h.2
  · intro h
    obtain ⟨hlt, -⟩ := List.getElem?_eq_some.mp h
    exact ⟨hlt, h⟩

theorem sepPositions_head (ln : List Char) (h0 : ln[0]? = some '│')
    (hlen : 1 ≤ ln.length) :
    (sepPositions ln).head? = some 0 := by
  unfold sepPositions
  obtain ⟨m, hm⟩ : ∃ m, ln.length = m + 1 := ⟨ln.length - 1, by omega⟩
  rw [hm, List.range_succ_eq_map]
  rw [List.filter_cons_of_pos (by simp [h0])]
  rfl

theorem sepPositions_getLast (ln : List Char) (hl : ln.getLast? = some '│')
    (hlen : 1 ≤ ln.length) :
    (sepPositions ln).getLast? = some (ln.length - 1) := by
  unfold sepPositions
  obtain ⟨m, hm⟩ : ∃ m, ln.length = m + 1 := ⟨ln.length - 1, by omega⟩
  have hm' : ln[m]? = some '│' := by
    rw [List.getLast?_eq_getElem?] at hl
    rw [hm] at hl
    simpa using hl
  rw [hm]
  rw [show List.range (m + 1) = List.range m ++ [m] from List.range_succ m]
  rw [List.filter_append, List.filter_cons_of_pos (by simp [hm']), List.filter_nil]
  rw [List.getLast?_concat]
  simp

theorem borderOf_eq_specBorder (ln : List Char) (l r m : Char)
    (h0 : ln[0]? = some '│') (hl : ln.getLast? = some '│')
    (hlen : 1 ≤ ln.length) :
    borderOf ln l r m = specBorder ln l r m := by
  unfold borderOf specBorder
  apply List.map_congr_left
  intro p hp
  obtain ⟨i, c⟩ := p
  have hic : ln[i]? = some c := List.mk_mem_enum_iff_getElem?.mp hp
  have hhead := sepPositions_head ln h0 hlen
  have hlast := sepPositions_getLast ln hl hlen
  dsimp only
  by_cases hc : c = '│'
  · subst hc
    rw [if_pos rfl]
    by_cases hi0 : i = 0
    · subst hi0
      rw [if_pos rfl, if_pos (by rw [hhead])]
    · rw [if_neg hi0]
      have hne1 : ¬ (sepPositions ln).head? = some i := by
        rw [hhead]
        intro hcon
        exact hi0 (Option.some_inj.mp hcon).symm
      by_cases hil : i = ln.length - 1
      · rw [if_pos hil, if_neg hne1, if_pos (by rw [hlast, hil])]
      · have hne2 : ¬ (sepPositions ln).getLast? = some i := by
          rw [hlast]
          intro hcon
          exact hil (Option.some_inj.mp hcon).symm
        rw [if_neg hil, if_neg hne1, if_neg hne2,
          if_pos ((mem_sepPositions ln i).mpr hic)]
  · rw [if_neg hc]
    have h0c : ¬ i = 0 := by
      intro hi0
      subst hi0
      rw [hic] at h0
      exact hc (Option.some_inj.mp h0)
    have hlc : ¬ i = ln.length - 1 := by
      intro hil
      rw [List.getLast?_eq_getElem?, ← hil, hic] at hl
      exact hc (Option.some_inj.mp hl)
    have hne1 : ¬ (sepPositions ln).head? = some i := by
      rw [hhead]
      intro hcon
      exact h0c (Option.some_inj.mp hcon).symm
    have hne2 : ¬ (sepPositions ln).getLast? = some i := by
      rw [hlast]
      intro hcon
      exact hlc (Option.some_inj.mp hcon).symm
    have hne3 : ¬ i ∈ sepPositions ln := by
      rw [mem_sepPositions, hic]
      intro hcon
      exact hc (Option.some_inj.mp hcon)
    rw [if_neg hne1, if_neg hne2, if_neg hne3]

namespace Sudoku

theorem renderFrom_eq (su : Sudoku) (outs : List (List Char))
    (_hh : 1 ≤ su.sec_height) (hdvd : su.sec_height ∣ su.height) :
    ∀ (n rr : Nat), rr ≤ su.height → su.height - rr = n →
      su.renderFrom outs rr =
        ((List.range' rr (su.height - rr)).flatMap fun r =>
          (if r % su.sec_height = 0 then
            [if r = 0 then borderOf (outs.getD 0 []) '┌' '┐' '┬'
             else borderOf (outs.getD 0 []) '├' '┤' '┼'] else [])
          ++ [outs.getD r []])
        ++ (if rr < su.height then [borderOf (outs.getD 0 []) '└' '┘' '┴']
            else []) := by
  intro n
  induction n with
  | zero =>
    intro rr h1 h2
    rw [renderFrom, dif_neg (by omega : ¬ rr < su.height)]
    rw [h2]
    simp [if_neg (by omega : ¬ rr < su.height)]
  | succ n ih =>
    intro rr h1 h2
    rw [renderFrom, dif_pos (by omega : rr < su.height)]
    rw [ih (rr + 1) (by omega) (by omega)]
    rw [h2, show su.height - (rr + 1) = n by omega]
    rw [show List.range' rr (n + 1) = rr :: List.range' (rr + 1) n from
      List.range'_succ rr n 1 ▸ rfl]
    rw [List.flatMap_cons]
    by_cases hend : rr + 1 = su.height
    · have hbot : (rr + 1) % su.sec_height = 0 ∧ rr + 1 = su.height := by
        refine ⟨?_, hend⟩
        rw [hend]
        obtain ⟨k, hk⟩ := hdvd
        rw [hk]
        exact Nat.mul_mod_right _ _
      rw [if_pos hbot]
      have hn0 : n = 0 := by omega
      subst hn0
      rw [if_neg (by omega : ¬ rr + 1 < su.height),
        if_pos (by omega : rr < su.height)]
      simp [List.append_assoc]
    · rw [if_neg (by tauto : ¬ ((rr + 1) % su.sec_height = 0 ∧ rr + 1 = su.height))]
      rw [if_pos (by omega : rr + 1 < su.height),
        if_pos (by omega : rr < su.height)]
      simp [List.append_assoc]

end Sudoku

/-! ### Decimal digit-count bounds for `Nat.toDigits` -/

theorem lt_pow_toDigitsCore_length :
    ∀ (f n : Nat), n < f → n < 10 ^ (Nat.toDigitsCore 10 f n []).length := by
  intro f
  induction f with
  | zero => intro n h; omega
  | succ f ih =>
    intro n h
    rw [show Nat.toDigitsCore 10 (f + 1) n [] =
      if n / 10 = 0 then [Nat.digitChar (n % 10)]
      else Nat.toDigitsCore 10 f (n / 10) [Nat.digitChar (n % 10)] from rfl]
    by_cases hdiv : n / 10 = 0
    · rw [if_pos hdiv]
      have hn : n < 10 := by omega
      simpa using hn
    · rw [if_neg hdiv]
      rw [Nat.toDigitsCore_lens_eq 10 f (n / 10) (Nat.digitChar (n % 10)) []]
      have hih := ih (n / 10) (by omega)
      have h2 : n < 10 * (n / 10 + 1) := by omega
      have h3 : n / 10 + 1 ≤ 10 ^ (Nat.toDigitsCore 10 f (n / 10) []).length := hih
      calc n < 10 * (n / 10 + 1) := h2
        _ ≤ 10 * 10 ^ (Nat.toDigitsCore 10 f (n / 10) []).length :=
            Nat.mul_le_mul_left 10 h3
        _ = 10 ^ ((Nat.toDigitsCore 10 f (n / 10) []).length + 1) := by
            rw [pow_succ]
            exact Nat.mul_comm _ _

theorem lt_pow_toDigits_length (n : Nat) :
    n < 10 ^ (Nat.toDigits 10 n).length :=
  lt_pow_toDigitsCore_length (n + 1) n (by omega)

theorem toDigits_length_pos (n : Nat) : 0 < (Nat.toDigits 10 n).length := by
  by_contra hcon
  push_neg at hcon
  have h := lt_pow_toDigits_length n
  have h0 : (Nat.toDigits 10 n).length = 0 := by omega
  rw [h0] at h
  simp only [pow_zero, Nat.lt_one_iff] at h
  subst h
  exact absurd h0 (by decide)

theorem toDigits_length_mono {c s : Nat} (h : c ≤ s) :
    (Nat.toDigits 10 c).length ≤ (Nat.toDigits 10 s).length := by
  have hlb := lt_pow_toDigits_length s
  have hpos := toDigits_length_pos s
  exact Nat.toDigitsCore_length 10 (by omega) (c + 1) c
    (Nat.toDigits 10 s).length (by omega) hpos

/-- Claim C10: For boards of the data model (dimension invariants, and
every stored value in `[1, size]` so that every cell is renderable — a
stored value with more decimal digits than `size` makes the Rust
formatter's padding subtraction underflow and the render abort,
`renderLines = none`), the rendered text equals the reference layout
transcribed from the specification: each grid row rendered as its cells
joined with single spaces with a `'│'` separator before every
section-starting column and wrapped as `│ ... │`; a top line before row 0,
a divider line before every other section-starting row, and a bottom line
after the final row, each synthesized from the first rendered row by
replacing the leftmost `'│'`, the rightmost `'│'`, the remaining `'│'`
positions and every other position with the corresponding glyph. -/
theorem render_layout_spec (su : Sudoku) (h : su.WellFormed)
    (hvals : ∀ r ∈ su.grid, ∀ v ∈ r, ∀ c, v = some c → 1 ≤ c ∧ c ≤ su.size) :
    su.renderLines = some su.specLines := by
  obtain ⟨hs, hw, hh, hmul, hlen, hrows⟩ := h
  have hht : su.height = su.size := hlen
  have hpos : 1 ≤ su.height := by omega
  have hdvd : su.sec_height ∣ su.height := by
    rw [hht, ← hmul]
    exact ⟨su.sec_width, Nat.mul_comm _ _⟩
  have hrowOutput : ∀ rr, rr < su.height →
      su.rowOutput rr = some (su.specRowLine rr) := by
    intro rr hrr
    apply rowOutput_some
    intro v hv c hc
    exact toDigits_length_mono
      (hvals _ (getD_mem_of_lt su.grid rr [] (by omega)) v hv c hc).2
  have houtso : su.rowOutputs =
      some ((List.range su.height).map su.specRowLine) := by
    unfold Sudoku.rowOutputs
    exact optionList_map_some _ _ _
      (fun rr hrr => hrowOutput rr (List.mem_range.mp hrr))
  unfold Sudoku.renderLines
  rw [houtso]
  show some (su.renderFrom ((List.range su.height).map su.specRowLine) 0) =
    some su.specLines
  refine congrArg some ?_
  set outs := (List.range su.height).map su.specRowLine with houts
  have houtsr : ∀ rr, rr < su.height → outs.getD rr [] = su.specRowLine rr := by
    intro rr hrr
    rw [houts]
    rw [List.getD_eq_getElem _ _ (by simpa using hrr)]
    rw [List.getElem_map, List.getElem_range]
  have hout0 : outs.getD 0 [] = su.specRowLine 0 := houtsr 0 hpos
  have hborder2 : ∀ l r m, borderOf (su.specRowLine 0) l r m =
      specBorder (su.specRowLine 0) l r m := by
    intro l r m
    apply borderOf_eq_specBorder
    · unfold Sudoku.specRowLine
      rfl
    · unfold Sudoku.specRowLine
      rw [show (['│', ' '] : List Char) ++
          su.specRowBody (Nat.toDigits 10 su.size).length 0 (su.grid.getD 0 []) ++
          [' ', '│'] =
          (['│', ' '] ++
            su.specRowBody (Nat.toDigits 10 su.size).length 0 (su.grid.getD 0 []) ++
            [' ']) ++ ['│'] by simp]
      exact List.getLast?_concat _
    · unfold Sudoku.specRowLine
      simp
  rw [Sudoku.renderFrom_eq su outs hh hdvd su.height 0 (by omega) (by omega)]
  rw [Nat.sub_zero]
  rw [if_pos (by omega : 0 < su.height)]
  unfold Sudoku.specLines
  obtain ⟨m, hm⟩ : ∃ m, su.height = m + 1 := ⟨su.height - 1, by omega⟩
  have hsize : su.size = m + 1 := by omega
  rw [hm, hsize]
  rw [show List.range (m + 1) = List.range' 0 (m + 1) from List.range_eq_range' (m + 1)]
  rw [show List.range' 0 (m + 1) = 0 :: List.range' 1 m from
    List.range'_succ 0 m 1 ▸ rfl]
  rw [List.flatMap_cons, List.flatMap_cons]
  rw [if_pos (Nat.zero_mod su.sec_height), if_pos rfl]
  rw [if_neg (by omega : ¬ ((0 : Nat) < 0 ∧ 0 % su.sec_height = 0))]
  rw [houtsr 0 hpos]
  have hcong : (List.range' 1 m).flatMap (fun r =>
      (if r % su.sec_height = 0 then
        [if r = 0 then borderOf (su.specRowLine 0) '┌' '┐' '┬'
         else borderOf (su.specRowLine 0) '├' '┤' '┼'] else [])
      ++ [outs.getD r []]) =
    (List.range' 1 m).flatMap (fun row =>
      (if 0 < row ∧ row % su.sec_height = 0 then
        [specBorder (su.specRowLine 0) '├' '┤' '┼'] else [])
      ++ [su.specRowLine row]) := by
    apply List.flatMap_congr
    intro rr hrr
    rw [List.mem_range'_1] at hrr
    have hrrh : rr < su.height := by omega
    rw [houtsr rr hrrh]
    congr 1
    by_cases hmod : rr % su.sec_height = 0
    · rw [if_pos hmod, if_neg (by omega : ¬ rr = 0), hborder2,
        if_pos (show 0 < rr ∧ rr % su.sec_height = 0 from ⟨by omega, hmod⟩)]
    · rw [if_neg hmod, if_neg (by tauto)]
  rw [hcong, hborder2, hborder2]
  simp [List.append_assoc]

/-- Witness for C10: on the solved 4×4 board (all values in `[1, 4]`) the
render succeeds and the lines equal the reference layout. -/
theorem render_layout_spec_witness :
    boardA.renderLines = some boardA.specLines :=
  render_layout_spec boardA (by decide) (by decide)

